import Mathlib

/-!
Verification of the recursive zero-knowledge proof composition example:
an Allowlist-style addition circuit that conditionally verifies a
side-loaded multiplication proof against a baked-in trusted
verification-key hash, and a Merkle-registry program that stores
verification keys in a fixed-depth tree and validates child proofs
against keys proven to be members of the registry.

The proof-system backend (Poseidon hash, proof verification) is opaque in
the source, so it is modelled parametrically: circuit methods take the
hash function and a proof-validity predicate as arguments, and every
assertion in a circuit method is modelled as an early error return of an
`Except`.
-/

namespace Allowlist

/-- The order of the Pallas base field, the field `o1js` exposes as `Field`. -/
def pPallas : ℕ := 28948022309329048855892746252171976963363056481941560715954676764349967630337

/-- The scalar field of the proof system, `Field` in the source. -/
abbrev Fp := ZMod pPallas

/-- The constant `trustedMulVkHash`, calculated from a previous run and baked
into the `add` program. -/
def trustedMulVkHash : Fp := 8142940553167082449842668986851829272657527115204486450531957647731361130797

/-- A verification key: an opaque blob of field elements (what
`VerificationKey.toFields` returns) together with its cached `hash` field. -/
structure VerificationKey where
  data : List Fp
  hash : Fp

/-- `VerificationKey.toFields vk` exposes the raw field elements of the key. -/
def VerificationKey.toFields (vk : VerificationKey) : List Fp := vk.data

/-- A `DynamicProof<Undefined, Field>`: carries a public output and, as the
opaque backend contract, a predicate saying against which verification keys
the proof actually verifies.  A dummy proof is one whose `verifies`
predicate need not hold for any key. -/
structure DynamicMultiplyProof where
  publicOutput : Fp
  verifies : VerificationKey → Bool

/-- The error taxonomy of the spec: each constructor names the assertion
whose failure aborts a circuit method. -/
inductive StepError where
  | untrustedKey
  | proofInvalid
  | slotOccupied
  | continuityBroken
  | childInputMismatch
deriving DecidableEq

/-- The `performAddition` method of the `add` program.  It first asserts
that the Poseidon hash of the supplied verification key's fields equals
`trustedMulVkHash`, then conditionally verifies the wrapped dynamic proof
(`proof.verifyIf(vk, multiplyResult.equals(Field(0)).not())`: verification
is skipped exactly when the proof's public output is zero), and finally
returns `multiplyResult + field`.  `phash` is the opaque Poseidon hash. -/
def performAddition (phash : List Fp → Fp) (field : Fp)
    (proof : DynamicMultiplyProof) (vk : VerificationKey) : Except StepError Fp :=
  let vkFields := VerificationKey.toFields vk
  let vkHash := phash vkFields
  if vkHash = trustedMulVkHash then
    let multiplyResult := proof.publicOutput
    if multiplyResult = 0 ∨ proof.verifies vk = true then
      Except.ok (multiplyResult + field)
    else
      Except.error StepError.proofInvalid
  else
    Except.error StepError.untrustedKey

/-- The `performMultiplication` method of the `multiply` program: it places
no assertion and returns `field1 * field2`. -/
def performMultiplication (field1 field2 : Fp) : Fp := field1 * field2

end Allowlist

namespace Registry

/-!
The Merkle-registry program (`dynamic-keys-merkletree.ts`).  The field is
kept as a type parameter `F` (the spec treats `FieldElement` as an opaque
scalar); `h2` stands for the Poseidon compression `(l, r) => hash([l, r])`
used by the tree.  A `MerkleWitness` is the o1js authentication path: a
list of `(isLeft, sibling)` pairs ordered from the leaf up to the root,
where `isLeft` says the running node is the left child at that level.
-/

/-- A verification key as used by the registry program, which only
reads its cached `hash` field. -/
structure VKey (F : Type) where
  hash : F

/-- `MainProgramState`: the public state threaded through the chain,
`treeRoot` committing to the registry and `state` the running value. -/
structure MainProgramState (F : Type) where
  treeRoot : F
  state : F
deriving DecidableEq

/-- A `SideloadedProgramProof` (`DynamicProof<Field, Field>`): public input,
public output, and the opaque backend contract of which verification keys
it verifies against. -/
structure ChildProof (F : Type) where
  publicInput : F
  publicOutput : F
  verifies : VKey F → Bool

/-- A `SelfProof`/`Proof<MainProgramState, MainProgramState>` of the main
program, of which `validateUsingTree` reads only the declared output. -/
structure PrevProof (F : Type) where
  publicInput : MainProgramState F
  publicOutput : MainProgramState F

/-- `MerkleWitness.calculateRoot leaf`: fold the authentication path from
the leaf upward, hashing the running node with each sibling on the side
the direction bit dictates. -/
def calculateRoot {F : Type} (h2 : F → F → F) : F → List (Bool × F) → F
  | leaf, [] => leaf
  | leaf, (isLeft, sibling) :: rest =>
      calculateRoot h2 (cond isLeft (h2 leaf sibling) (h2 sibling leaf)) rest

/-- The `addSideloadedProgram` method: asserts that the supplied witness
recomputes the claimed root under the empty leaf `Field(0)` (the slot must
be empty), then returns the state with the root replaced by
`merkleWitness.calculateRoot(vk.hash)` and the `state` field unchanged. -/
def addSideloadedProgram {F : Type} [DecidableEq F] [Zero F] (h2 : F → F → F)
    (publicInput : MainProgramState F) (vk : VKey F)
    (merkleWitness : List (Bool × F)) : Except Allowlist.StepError (MainProgramState F) :=
  let currentRoot := calculateRoot h2 (0 : F) merkleWitness
  if publicInput.treeRoot = currentRoot then
    let newRoot := calculateRoot h2 vk.hash merkleWitness
    Except.ok ⟨newRoot, publicInput.state⟩
  else
    Except.error Allowlist.StepError.slotOccupied

/-- The `validateUsingTree` method, with its assertions in source order:
continuity of the predecessor's output `state` then `treeRoot` with the
public input; membership of `vk.hash` in the tree under the claimed root;
verification of the side-loaded proof against `vk`; and equality of the
child proof's public input with the running state.  On success the root is
carried through and the state becomes the child proof's output. -/
def validateUsingTree {F : Type} [DecidableEq F] (h2 : F → F → F)
    (publicInput : MainProgramState F) (previous : PrevProof F) (vk : VKey F)
    (merkleWitness : List (Bool × F)) (proof : ChildProof F) :
    Except Allowlist.StepError (MainProgramState F) :=
  if previous.publicOutput.state = publicInput.state then
    if previous.publicOutput.treeRoot = publicInput.treeRoot then
      let computedRoot := calculateRoot h2 vk.hash merkleWitness
      if publicInput.treeRoot = computedRoot then
        if proof.verifies vk = true then
          if proof.publicInput = publicInput.state then
            Except.ok ⟨publicInput.treeRoot, proof.publicOutput⟩
          else
            Except.error Allowlist.StepError.childInputMismatch
        else
          Except.error Allowlist.StepError.proofInvalid
      else
        Except.error Allowlist.StepError.untrustedKey
    else
      Except.error Allowlist.StepError.continuityBroken
  else
    Except.error Allowlist.StepError.continuityBroken

/-- A depth-`d` Merkle tree represented by its leaf assignment: a function
from root-to-leaf direction paths (length-`d` lists, `false` = left) to
leaf values. -/
def subRoot {F : Type} (h2 : F → F → F) : ℕ → (List Bool → F) → F
  | 0, leaves => leaves []
  | d + 1, leaves =>
      h2 (subRoot h2 d (fun q => leaves (false :: q)))
         (subRoot h2 d (fun q => leaves (true :: q)))

/-- `MerkleTree.setLeaf`: the leaf assignment updated at one path. -/
def setLeaf {F : Type} (leaves : List Bool → F) (p : List Bool) (v : F) :
    List Bool → F :=
  fun q => if q = p then v else leaves q

/-- `MerkleTree.getWitness`: the authentication path for the leaf at `p`,
ordered leaf-to-root as o1js produces it; the sibling stored at each level
is the subtree root on the other side, and `isLeft` records that the
running node is the left child there. -/
def getWitness {F : Type} (h2 : F → F → F) : ℕ → (List Bool → F) → List Bool → List (Bool × F)
  | 0, _, _ => []
  | _ + 1, _, [] => []
  | d + 1, leaves, b :: p =>
      cond b
        (getWitness h2 d (fun q => leaves (true :: q)) p ++
          [(false, subRoot h2 d (fun q => leaves (false :: q)))])
        (getWitness h2 d (fun q => leaves (false :: q)) p ++
          [(true, subRoot h2 d (fun q => leaves (true :: q)))])

theorem calculateRoot_append {F : Type} (h2 : F → F → F) (leaf : F)
    (ws : List (Bool × F)) (b : Bool) (s : F) :
    calculateRoot h2 leaf (ws ++ [(b, s)]) =
      cond b (h2 (calculateRoot h2 leaf ws) s) (h2 s (calculateRoot h2 leaf ws)) := by
  induction ws generalizing leaf with
  | nil => cases b <;> simp [calculateRoot]
  | cons hd tl ih =>
      obtain ⟨c, t⟩ := hd
      simp only [List.cons_append, calculateRoot]
      exact ih _

theorem setLeaf_cons_same {F : Type} (leaves : List Bool → F) (b : Bool)
    (p : List Bool) (v : F) :
    (fun q => setLeaf leaves (b :: p) v (b :: q)) = setLeaf (fun q => leaves (b :: q)) p v := by
  funext q
  simp [setLeaf]

theorem setLeaf_cons_diff {F : Type} (leaves : List Bool → F) (b c : Bool)
    (p : List Bool) (v : F) (hbc : c ≠ b) :
    (fun q => setLeaf leaves (b :: p) v (c :: q)) = fun q => leaves (c :: q) := by
  funext q
  simp [setLeaf, hbc]

theorem setLeaf_self {F : Type} (leaves : List Bool → F) (p : List Bool) :
    setLeaf leaves p (leaves p) = leaves := by
  funext q
  simp only [setLeaf]
  split
  · rename_i hq
    rw [hq]
  · rfl

theorem setLeaf_setLeaf {F : Type} (leaves : List Bool → F) (p : List Bool) (a v : F) :
    setLeaf (setLeaf leaves p a) p v = setLeaf leaves p v := by
  funext q
  simp only [setLeaf]
  split <;> rfl

/-- The central Merkle fact: recomputing the root from an honestly
generated witness, with the leaf replaced by `v`, yields exactly the root
of the tree whose leaf at that path has been set to `v`. -/
theorem calculateRoot_getWitness {F : Type} (h2 : F → F → F) (d : ℕ)
    (leaves : List Bool → F) (p : List Bool) (v : F) (hp : p.length = d) :
    calculateRoot h2 v (getWitness h2 d leaves p) = subRoot h2 d (setLeaf leaves p v) := by
  induction d generalizing leaves p with
  | zero =>
      rw [List.length_eq_zero] at hp
      subst hp
      simp [getWitness, calculateRoot, subRoot, setLeaf]
  | succ d ih =>
      cases p with
      | nil => simp at hp
      | cons b p =>
          simp only [List.length_cons, Nat.succ_inj] at hp
          cases b with
          | false =>
              simp only [getWitness, cond_false]
              rw [calculateRoot_append]
              simp only [cond_true]
              rw [ih _ _ hp]
              simp only [subRoot]
              rw [setLeaf_cons_same, setLeaf_cons_diff leaves false true p v (by simp)]
          | true =>
              simp only [getWitness, cond_true]
              rw [calculateRoot_append]
              simp only [cond_false]
              rw [ih _ _ hp]
              simp only [subRoot]
              rw [setLeaf_cons_same, setLeaf_cons_diff leaves true false p v (by simp)]

/-- Under an injective (collision-free) compression function, changing one
leaf of the tree changes the root. -/
theorem subRoot_setLeaf_ne {F : Type} (h2 : F → F → F)
    (hinj : ∀ a b c e : F, h2 a b = h2 c e → a = c ∧ b = e) (d : ℕ)
    (leaves : List Bool → F) (p : List Bool) (v : F) (hp : p.length = d)
    (hv : v ≠ leaves p) :
    subRoot h2 d (setLeaf leaves p v) ≠ subRoot h2 d leaves := by
  induction d generalizing leaves p with
  | zero =>
      rw [List.length_eq_zero] at hp
      subst hp
      simpa [subRoot, setLeaf] using hv
  | succ d ih =>
      cases p with
      | nil => simp at hp
      | cons b p =>
          simp only [List.length_cons, Nat.succ_inj] at hp
          intro h
          simp only [subRoot] at h
          obtain ⟨hl, hr⟩ := hinj _ _ _ _ h
          cases b with
          | false =>
              rw [setLeaf_cons_same] at hl
              exact ih (fun q => leaves (false :: q)) p hp hv (by
                rw [setLeaf_cons_diff leaves false true p v (by simp)] at hr
                exact hl)
          | true =>
              rw [setLeaf_cons_same] at hr
              exact ih (fun q => leaves (true :: q)) p hp hv (by
                rw [setLeaf_cons_diff leaves true false p v (by simp)] at hl
                exact hr)

end Registry

namespace Allowlist

/-- C1: the trust check of `performAddition` holds iff the Poseidon hash of
the supplied verification key's fields equals the baked-in
`trustedMulVkHash`: the method aborts with the key-check failure
(`untrustedKey`) exactly when the hash differs, and passes the key check
(never reaching that error) exactly when it matches. -/
theorem performAddition_keyCheck_iff (phash : List Fp → Fp) (field : Fp)
    (proof : DynamicMultiplyProof) (vk : VerificationKey) :
    performAddition phash field proof vk = Except.error StepError.untrustedKey ↔
      phash (VerificationKey.toFields vk) ≠ trustedMulVkHash := by
  unfold performAddition
  by_cases h : phash (VerificationKey.toFields vk) = trustedMulVkHash
  · by_cases hp : proof.publicOutput = 0 ∨ proof.verifies vk = true
    · simp [h, hp]
    · simp [h, hp]
  · simp [h]

/-- C7: when the skip condition holds (the wrapped proof's public output is
`0`), `proof.verifyIf` is bypassed and `performAddition` can never fail
with a verification failure, whatever the proof's `verifies` contract —
including a structurally invalid dummy proof. -/
theorem performAddition_skip_never_proofInvalid (phash : List Fp → Fp) (field : Fp)
    (proof : DynamicMultiplyProof) (vk : VerificationKey)
    (h0 : proof.publicOutput = 0) :
    performAddition phash field proof vk ≠ Except.error StepError.proofInvalid := by
  unfold performAddition
  by_cases h : phash (VerificationKey.toFields vk) = trustedMulVkHash
  · simp [h, h0]
  · simp [h]

/-- Witness for C7 at a concrete input: a dummy proof with output `0` that
verifies against no key, and a hash function that accepts the key. -/
theorem performAddition_skip_never_proofInvalid_w :
    performAddition (fun _ => trustedMulVkHash) 5
      ⟨0, fun _ => false⟩ ⟨[], 0⟩ ≠ Except.error StepError.proofInvalid :=
  performAddition_skip_never_proofInvalid (fun _ => trustedMulVkHash) 5
    ⟨0, fun _ => false⟩ ⟨[], 0⟩ rfl

/-- C10: the trusted-hash check is enforced unconditionally and before the
skip decision: whenever the hash of the supplied key's fields differs from
`trustedMulVkHash`, `performAddition` fails with the key-check error, for
every proof — in particular in the base case where the proof's public
output is `0` and verification itself would be skipped. -/
theorem performAddition_untrusted_always_fails (phash : List Fp → Fp) (field : Fp)
    (proof : DynamicMultiplyProof) (vk : VerificationKey)
    (hne : phash (VerificationKey.toFields vk) ≠ trustedMulVkHash) :
    performAddition phash field proof vk = Except.error StepError.untrustedKey := by
  unfold performAddition
  simp [hne]

/-- Witness for C10 at a concrete input: the hash function returning `0`
(which differs from `trustedMulVkHash`), applied to a base-case dummy
proof with output `0`. -/
theorem performAddition_untrusted_always_fails_w :
    performAddition (fun _ => 0) 5 ⟨0, fun _ => false⟩ ⟨[], 0⟩ =
      Except.error StepError.untrustedKey :=
  performAddition_untrusted_always_fails (fun _ => 0) 5 ⟨0, fun _ => false⟩ ⟨[], 0⟩
    (by decide)

/-- C8: the literal Allowlist end-to-end scenario.  For any Poseidon hash
and key passing the trust check: the base-case addition of `5` with a
dummy proof of output `0` (skip condition true) yields `5`;
`performMultiplication 3 3` yields `9`; the skip condition is genuinely
false in the second step since `9 ≠ 0` in the field; the second addition
of `4` consuming a verifying proof of output `9` yields `13`; and in
general every successful `performAddition` returns
`proof.publicOutput + field`. -/
theorem endToEnd_allowlist (phash : List Fp → Fp) (vk : VerificationKey)
    (dummy proof9 : DynamicMultiplyProof)
    (htr : phash (VerificationKey.toFields vk) = trustedMulVkHash)
    (hd : dummy.publicOutput = 0)
    (h9 : proof9.publicOutput = 9) (hv : proof9.verifies vk = true) :
    performAddition phash 5 dummy vk = Except.ok 5 ∧
    performMultiplication 3 3 = 9 ∧
    (9 : Fp) ≠ 0 ∧
    performAddition phash 4 proof9 vk = Except.ok 13 ∧
    (∀ (f : Fp) (pr : DynamicMultiplyProof),
      pr.publicOutput = 0 ∨ pr.verifies vk = true →
      performAddition phash f pr vk = Except.ok (pr.publicOutput + f)) := by
  refine ⟨?_, ?_, ?_, ?_, ?_⟩
  · unfold performAddition
    simp [htr, hd]
  · decide
  · decide
  · unfold performAddition
    simp only [htr, if_pos rfl, h9, hv]
    norm_num
  · intro f pr hok
    unfold performAddition
    rcases hok with h | h <;> simp [htr, h]

/-- Witness for C8 at concrete inputs: a hash function that maps every key
to the trusted constant, a dummy proof of output `0`, and a universally
verifying proof of output `9`. -/
theorem endToEnd_allowlist_w :
    performAddition (fun _ => trustedMulVkHash) 5 ⟨0, fun _ => false⟩ ⟨[], 0⟩ = Except.ok 5 ∧
    performMultiplication 3 3 = 9 ∧
    (9 : Fp) ≠ 0 ∧
    performAddition (fun _ => trustedMulVkHash) 4 ⟨9, fun _ => true⟩ ⟨[], 0⟩ = Except.ok 13 ∧
    (∀ (f : Fp) (pr : DynamicMultiplyProof),
      pr.publicOutput = 0 ∨ pr.verifies (⟨[], 0⟩ : VerificationKey) = true →
      performAddition (fun _ => trustedMulVkHash) f pr ⟨[], 0⟩ =
        Except.ok (pr.publicOutput + f)) :=
  endToEnd_allowlist (fun _ => trustedMulVkHash) ⟨[], 0⟩ ⟨0, fun _ => false⟩
    ⟨9, fun _ => true⟩ rfl rfl rfl rfl

end Allowlist

namespace Registry

theorem MainProgramState.ext2 {F : Type} (a b : MainProgramState F)
    (h1 : a.treeRoot = b.treeRoot) (h2 : a.state = b.state) : a = b := by
  cases a
  cases b
  simp_all

/-- C2: when the predecessor proof's output equals the supplied input
state, the witness proves membership of the key's hash under the root, and
the dynamic proof verifies against the key with public input equal to the
running value, `validateUsingTree` succeeds, carrying the root through
unchanged and replacing the value by the child proof's public output. -/
theorem validateUsingTree_success {F : Type} [DecidableEq F] (h2 : F → F → F)
    (publicInput : MainProgramState F) (previous : PrevProof F) (vk : VKey F)
    (w : List (Bool × F)) (proof : ChildProof F)
    (hprev : previous.publicOutput = publicInput)
    (hmem : calculateRoot h2 vk.hash w = publicInput.treeRoot)
    (hver : proof.verifies vk = true)
    (hin : proof.publicInput = publicInput.state) :
    validateUsingTree h2 publicInput previous vk w proof =
      Except.ok ⟨publicInput.treeRoot, proof.publicOutput⟩ := by
  unfold validateUsingTree
  rw [hprev]
  simp [hver, hin, hmem]

/-- Witness for C2 at a concrete input: a one-element state, an empty
authentication path, and a child proof verifying against every key. -/
theorem validateUsingTree_success_w :
    validateUsingTree (fun a b => a + b) (⟨5, 2⟩ : MainProgramState ℕ)
        ⟨⟨0, 0⟩, ⟨5, 2⟩⟩ ⟨5⟩ [] ⟨2, 7, fun _ => true⟩ =
      Except.ok ⟨5, 7⟩ :=
  validateUsingTree_success (fun a b => a + b) ⟨5, 2⟩ ⟨⟨0, 0⟩, ⟨5, 2⟩⟩ ⟨5⟩ []
    ⟨2, 7, fun _ => true⟩ rfl rfl rfl rfl

/-- C3: whenever the predecessor proof's declared output differs from the
supplied input state — in the root or in the value component —
`validateUsingTree` fails with the continuity error; no run succeeds
without the predecessor's output equalling the input state. -/
theorem validateUsingTree_continuity {F : Type} [DecidableEq F] (h2 : F → F → F)
    (publicInput : MainProgramState F) (previous : PrevProof F) (vk : VKey F)
    (w : List (Bool × F)) (proof : ChildProof F)
    (hne : previous.publicOutput ≠ publicInput) :
    validateUsingTree h2 publicInput previous vk w proof =
      Except.error Allowlist.StepError.continuityBroken := by
  unfold validateUsingTree
  by_cases hs : previous.publicOutput.state = publicInput.state
  · have hr : previous.publicOutput.treeRoot ≠ publicInput.treeRoot :=
      fun hr => hne (MainProgramState.ext2 _ _ hr hs)
    simp [hs, hr]
  · simp [hs]

/-- Witness for C3 at a concrete input: predecessor output and claimed
input state differ in the value component. -/
theorem validateUsingTree_continuity_w :
    validateUsingTree (fun a b => a + b) (⟨0, 2⟩ : MainProgramState ℕ)
        ⟨⟨0, 0⟩, ⟨0, 1⟩⟩ ⟨5⟩ [] ⟨2, 7, fun _ => true⟩ =
      Except.error Allowlist.StepError.continuityBroken :=
  validateUsingTree_continuity (fun a b => a + b) ⟨0, 2⟩ ⟨⟨0, 0⟩, ⟨0, 1⟩⟩ ⟨5⟩ []
    ⟨2, 7, fun _ => true⟩ (by decide)

/-- C6: a successful `addSideloadedProgram` changes only the registry
root — the `state` component of its output equals the `state` component of
its input. -/
theorem addSideloadedProgram_frame {F : Type} [DecidableEq F] [Zero F]
    (h2 : F → F → F) (publicInput : MainProgramState F) (vk : VKey F)
    (w : List (Bool × F)) (out : MainProgramState F)
    (hok : addSideloadedProgram h2 publicInput vk w = Except.ok out) :
    out.state = publicInput.state := by
  simp only [addSideloadedProgram] at hok
  split at hok
  · cases hok
    rfl
  · cases hok

/-- Witness for C6 at a concrete input: an empty path against the root `0`
with empty leaf, so the insertion succeeds. -/
theorem addSideloadedProgram_frame_w :
    (⟨7, 3⟩ : MainProgramState ℕ).state = (⟨0, 3⟩ : MainProgramState ℕ).state :=
  addSideloadedProgram_frame (fun a b => a + b) ⟨0, 3⟩ ⟨7⟩ [] ⟨7, 3⟩ rfl

/-- C9: `addSideloadedProgram` takes no predecessor proof and no access
control input; it succeeds — returning the recomputed root and the
untouched state — exactly when the supplied witness recomputes the claimed
root under the empty leaf, and the claimed `state` value is arbitrary:
the equivalence holds for every caller-chosen `s`. -/
theorem addSideloadedProgram_characterization {F : Type} [DecidableEq F] [Zero F]
    (h2 : F → F → F) (r s : F) (vk : VKey F) (w : List (Bool × F)) :
    addSideloadedProgram h2 ⟨r, s⟩ vk w =
        Except.ok ⟨calculateRoot h2 vk.hash w, s⟩ ↔
      calculateRoot h2 (0 : F) w = r := by
  unfold addSideloadedProgram
  by_cases h : r = calculateRoot h2 (0 : F) w
  · simp [h]
  · simp only [if_neg h]
    constructor
    · intro hc
      cases hc
    · intro hc
      exact absurd hc.symm h

/-- C4: inserting a key at an empty slot succeeds, returns
`witness.calculateRoot(vk.hash)` as the new root, and a fresh witness for
the same index computed against the updated tree recomputes exactly that
new root under the inserted leaf. -/
theorem insert_then_fresh_witness {F : Type} [DecidableEq F] [Zero F]
    (h2 : F → F → F) (d : ℕ) (leaves : List Bool → F) (p : List Bool)
    (vk : VKey F) (s : F) (hp : p.length = d) (hempty : leaves p = 0) :
    addSideloadedProgram h2 ⟨subRoot h2 d leaves, s⟩ vk (getWitness h2 d leaves p) =
      Except.ok ⟨calculateRoot h2 vk.hash (getWitness h2 d leaves p), s⟩ ∧
    calculateRoot h2 vk.hash (getWitness h2 d (setLeaf leaves p vk.hash) p) =
      calculateRoot h2 vk.hash (getWitness h2 d leaves p) := by
  have hcur : calculateRoot h2 (0 : F) (getWitness h2 d leaves p) = subRoot h2 d leaves := by
    rw [calculateRoot_getWitness h2 d leaves p 0 hp, ← hempty, setLeaf_self]
  constructor
  · unfold addSideloadedProgram
    simp [hcur]
  · rw [calculateRoot_getWitness h2 d (setLeaf leaves p vk.hash) p vk.hash hp,
        calculateRoot_getWitness h2 d leaves p vk.hash hp, setLeaf_setLeaf]

/-- Witness for C4 at a concrete input: a depth-1 tree with both leaves
empty, inserting the key hash `7` on the left. -/
theorem insert_then_fresh_witness_w :
    addSideloadedProgram (fun a b : ℕ => a + b + 1)
        ⟨subRoot (fun a b => a + b + 1) 1 (fun _ => 0), 3⟩ ⟨7⟩
        (getWitness (fun a b => a + b + 1) 1 (fun _ => 0) [false]) =
      Except.ok ⟨calculateRoot (fun a b => a + b + 1) 7
        (getWitness (fun a b => a + b + 1) 1 (fun _ => 0) [false]), 3⟩ ∧
    calculateRoot (fun a b => a + b + 1) 7
        (getWitness (fun a b => a + b + 1) 1
          (setLeaf (fun _ => 0) [false] 7) [false]) =
      calculateRoot (fun a b => a + b + 1) 7
        (getWitness (fun a b => a + b + 1) 1 (fun _ => 0) [false]) :=
  insert_then_fresh_witness (fun a b => a + b + 1) 1 (fun _ => 0) [false] ⟨7⟩ 3
    rfl rfl

/-- C5: under the spec's collision-resistance assumption on the hash
(modelled as injectivity of the compression function), inserting at a
non-empty slot always fails with the slot-occupied error — for every key,
including one whose hash equals the value already stored at the slot. -/
theorem insert_occupied_fails {F : Type} [DecidableEq F] [Zero F]
    (h2 : F → F → F)
    (hinj : ∀ a b c e : F, h2 a b = h2 c e → a = c ∧ b = e)
    (d : ℕ) (leaves : List Bool → F) (p : List Bool) (vk : VKey F) (s : F)
    (hp : p.length = d) (hocc : leaves p ≠ 0) :
    addSideloadedProgram h2 ⟨subRoot h2 d leaves, s⟩ vk (getWitness h2 d leaves p) =
      Except.error Allowlist.StepError.slotOccupied := by
  have hcur : calculateRoot h2 (0 : F) (getWitness h2 d leaves p) =
      subRoot h2 d (setLeaf leaves p 0) := calculateRoot_getWitness h2 d leaves p 0 hp
  have hne : subRoot h2 d (setLeaf leaves p 0) ≠ subRoot h2 d leaves :=
    subRoot_setLeaf_ne h2 hinj d leaves p 0 hp (fun h => hocc h.symm)
  unfold addSideloadedProgram
  simp only [hcur]
  split
  · rename_i hcontra
    exact absurd hcontra.symm hne
  · rfl

/-- Witness for C5 at a concrete input: the injective pairing function on
the naturals as compression, a depth-0 tree whose single slot holds `5`,
and an inserted key whose hash is `5` as well — the equal-value case the
claim singles out. -/
theorem insert_occupied_fails_w :
    addSideloadedProgram Nat.pair
        ⟨subRoot Nat.pair 0 (fun _ => 5), 2⟩ ⟨5⟩
        (getWitness Nat.pair 0 (fun _ => 5) []) =
      Except.error Allowlist.StepError.slotOccupied :=
  insert_occupied_fails Nat.pair
    (fun _ _ _ _ h => ⟨(Nat.pair_eq_pair.mp h).1, (Nat.pair_eq_pair.mp h).2⟩)
    0 (fun _ => 5) [] ⟨5⟩ 2 rfl (by decide)

end Registry
